import Mathlib

/-!
Verification of the relationship-resolution helpers of `convex-helpers`
(`server/relationships.ts`): `getAll`, `getAllOrThrow`, `getOneFrom`,
`getOneFromOrThrow`, `getManyFrom`, `getManyVia`, `getManyViaOrThrow`,
together with the type-level field-resolution rule `FieldIfDoesntMatchIndex`.

The store adapter (`db`) is modelled as a record of pure functions
(`get`, `systemGet`, `queryByIndex`).  `db.get` may raise (in Convex it
raises when handed an identifier of a reserved/system table), so it returns
`Except String (Option Doc)`.  Each helper is defined in a traced form
(`…T`) returning its result together with the list of store operations it
issues; the plain helper is the first projection.  The trace is used to
settle the frame claim (the layer issues only reads).
-/

namespace Relationships

/-- Document identifiers, modelled as naturals. -/
abbrev DocId := Nat

/-- Values stored in document fields and used for index lookups. -/
abbrev Value := Nat

abbrev TableName := String
abbrev IndexName := String
abbrev FieldName := String

/-- A document: a record mapping field names to values.  Foreign-key
fields hold the `DocId` of the referenced document. -/
structure Doc where
  fields : List (FieldName × Value)
deriving DecidableEq, Repr

/-- Extraction `link[toField]` performed by `getManyVia`/`getManyViaOrThrow`
on a join record: the value stored at `f`. -/
def Doc.idAt (d : Doc) (f : FieldName) : DocId :=
  (d.fields.lookup f).getD 0

/-- The store adapter (Convex `GenericDatabaseReader`), specified at its
interface: `get` resolves an identifier (raising when the identifier is not
applicable to the primary reader, e.g. a system-table identifier),
`systemGet` resolves identifiers of reserved/system tables, and
`queryByIndex` is the index scan backing `.withIndex(...).collect()` /
`.unique()`. -/
structure DBReader where
  get : DocId → Except String (Option Doc)
  systemGet : DocId → Option Doc
  queryByIndex : TableName → IndexName → FieldName → Value → List Doc

/-- Store operations, for tracing what the layer issues.  `insert` and
`delete` are the writes available to external collaborators; the layer
itself must only issue the three reads. -/
inductive DBOp where
  | get (id : DocId)
  | queryByIndex (t : TableName) (i : IndexName) (f : FieldName) (v : Value)
  | systemGet (id : DocId)
  | insert (t : TableName) (d : Doc)
  | delete (id : DocId)
deriving DecidableEq, Repr

/-- Whether a store operation is a read. -/
def DBOp.isRead : DBOp → Bool
  | .insert _ _ => false
  | .delete _ => false
  | _ => true

/-- A list of store operations containing only reads. -/
def readOnlyOps (ops : List DBOp) : Prop :=
  ∀ op ∈ ops, DBOp.isRead op = true

/-- Gather a list of `Except` results: the results in order when all
succeed, otherwise the leftmost error.  This is the result shape of
`Promise.all` over already-dispatched promises. -/
def collectAll {β : Type} : List (Except String β) → Except String (List β)
  | [] => Except.ok []
  | (Except.error e) :: _ => Except.error e
  | (Except.ok b) :: rest =>
    match collectAll rest with
    | Except.error e => Except.error e
    | Except.ok bs => Except.ok (b :: bs)

/-- Modelled from the spec: `asyncMap` (imported from the package root
`index.ts`, not part of the provided sources) maps an async transform over
all items — "map-then-await-all" — producing the transformed results in
input order; a failure of any single transform fails the whole call. -/
def asyncMap {α β : Type} (l : List α) (f : α → Except String β) :
    Except String (List β) :=
  collectAll (l.map f)

/-- Default message raised on a null value when no message is supplied. -/
def defaultNullMessage : String := "Unexpected null value."

/-- Modelled from the spec: `nullThrows` (imported from the package root
`index.ts`, not part of the provided sources) raises a missing-record
error when handed an absent value — with the supplied message, or a generic
default when none is supplied — and returns the value otherwise. -/
def nullThrows {α : Type} (v : Option α) (message : Option String) :
    Except String α :=
  match v with
  | none => Except.error (message.getD defaultNullMessage)
  | some x => Except.ok x

/-- Error raised by the store's `.unique()` when an indexed equality query
matches more than one document (Convex raises in this situation). -/
def uniqueViolationMessage : String :=
  "unique() query returned more than one result"

/-- The store's `.unique()` post-processing of an index scan: absent on no
match, the document on exactly one match, an error on several. -/
def uniqueQ : List Doc → Except String (Option Doc)
  | [] => Except.ok none
  | [d] => Except.ok (some d)
  | _ :: _ :: _ => Except.error uniqueViolationMessage

/-! ### The index-constraint resolver (`FieldIfDoesntMatchIndex`)

An index declaration carries its name and its declared field list.  The
source type `FieldIfDoesntMatchIndex` makes the field argument optional
when `indexes[IndexName][0] extends IndexName` — i.e. when the FIRST
declared field equals the index name — and in both the optional and the
mandatory case the accepted field argument has type
`indexes[IndexName][0]`, the FIRST declared field. -/

structure IndexDecl where
  name : IndexName
  fields : List FieldName
deriving DecidableEq, Repr

/-- Embedding of `FieldIfDoesntMatchIndex`: the field argument may be
omitted exactly when the index's first declared field equals the index's
own name. -/
def fieldArgOptional (idx : IndexDecl) : Bool :=
  decide (idx.fields.head? = some idx.name)

/-- Embedding of `FieldIfDoesntMatchIndex`'s element type: a supplied
field argument is accepted exactly when it equals the index's first
declared field. -/
def fieldArgAccepted (idx : IndexDecl) (f : FieldName) : Bool :=
  decide (idx.fields.head? = some f)

/-- The spec's wording: omission permitted exactly when the declared field
list is exactly `[index]`. -/
def fieldArgOptionalSpec (idx : IndexDecl) : Bool :=
  decide (idx.fields = [idx.name])

/-- The spec's wording: a mandatory field argument must equal one of the
index's declared fields. -/
def fieldArgAcceptedSpec (idx : IndexDecl) (f : FieldName) : Bool :=
  decide (f ∈ idx.fields)

/-! ### The seven operations, in traced form -/

/-- `getAll`: `asyncMap(ids, db.get)` — one `db.get` per identifier, all
dispatched, results reassembled in input order. -/
def getAllT (db : DBReader) (ids : List DocId) :
    Except String (List (Option Doc)) × List DBOp :=
  (asyncMap ids db.get, ids.map DBOp.get)

def getAll (db : DBReader) (ids : List DocId) :
    Except String (List (Option Doc)) :=
  (getAllT db ids).1

/-- The per-identifier transform of `getAllOrThrow`:
`async (id) => nullThrows(await db.get(id))` — note that no message
argument is passed to `nullThrows`. -/
def getOrThrow (db : DBReader) (i : DocId) : Except String Doc :=
  match db.get i with
  | Except.error e => Except.error e
  | Except.ok d => nullThrows d none

/-- `getAllOrThrow`: `asyncMap(ids, async (id) => nullThrows(await db.get(id)))`. -/
def getAllOrThrowT (db : DBReader) (ids : List DocId) :
    Except String (List Doc) × List DBOp :=
  (asyncMap ids (getOrThrow db), ids.map DBOp.get)

def getAllOrThrow (db : DBReader) (ids : List DocId) :
    Except String (List Doc) :=
  (getAllOrThrowT db ids).1

/-- Field resolution shared by the index-lookup and join-traversal
helpers: `fieldArg[0] ?? index`. -/
def resolveField (index : IndexName) (fieldArg : Option FieldName) :
    FieldName :=
  fieldArg.getD index

/-- `getOneFrom`: `db.query(table).withIndex(index, q => q.eq(field, value)).unique()`. -/
def getOneFromT (db : DBReader) (table : TableName) (index : IndexName)
    (value : Value) (fieldArg : Option FieldName) :
    Except String (Option Doc) × List DBOp :=
  let field := resolveField index fieldArg
  (uniqueQ (db.queryByIndex table index field value),
   [DBOp.queryByIndex table index field value])

def getOneFrom (db : DBReader) (table : TableName) (index : IndexName)
    (value : Value) (fieldArg : Option FieldName) :
    Except String (Option Doc) :=
  (getOneFromT db table index value fieldArg).1

/-- Message of the error raised by `getOneFromOrThrow` on an absent
result, naming the table, the resolved field and the value. -/
def missingOneMsg (table : TableName) (field : FieldName) (value : Value) :
    String :=
  "Cannot find a document in " ++ table ++ " with field " ++ field ++
    " equal to " ++ toString value

/-- `getOneFromOrThrow`: the same unique query, then
`nullThrows(ret, message)` with a message naming table, field and value. -/
def getOneFromOrThrowT (db : DBReader) (table : TableName)
    (index : IndexName) (value : Value) (fieldArg : Option FieldName) :
    Except String Doc × List DBOp :=
  let field := resolveField index fieldArg
  ((match uniqueQ (db.queryByIndex table index field value) with
    | Except.error e => Except.error e
    | Except.ok ret => nullThrows ret (some (missingOneMsg table field value))),
   [DBOp.queryByIndex table index field value])

def getOneFromOrThrow (db : DBReader) (table : TableName)
    (index : IndexName) (value : Value) (fieldArg : Option FieldName) :
    Except String Doc :=
  (getOneFromOrThrowT db table index value fieldArg).1

/-- `getManyFrom`: `db.query(table).withIndex(index, q => q.eq(field, value)).collect()`. -/
def getManyFromT (db : DBReader) (table : TableName) (index : IndexName)
    (value : Value) (fieldArg : Option FieldName) :
    Except String (List Doc) × List DBOp :=
  let field := resolveField index fieldArg
  (Except.ok (db.queryByIndex table index field value),
   [DBOp.queryByIndex table index field value])

def getManyFrom (db : DBReader) (table : TableName) (index : IndexName)
    (value : Value) (fieldArg : Option FieldName) :
    Except String (List Doc) :=
  (getManyFromT db table index value fieldArg).1

/-- Per-join-record resolution of `getManyVia`:
`try { return await db.get(id) } catch { return await db.system.get(id) }`.
The system fallback runs only when the primary `get` raises; a primary
`get` that completes with an absent value yields an absent element without
consulting `systemGet`. -/
def resolveLinkT (db : DBReader) (id : DocId) :
    Option Doc × List DBOp :=
  match db.get id with
  | Except.ok d => (d, [DBOp.get id])
  | Except.error _ => (db.systemGet id, [DBOp.get id, DBOp.systemGet id])

/-- `getManyVia`: stage 1 is `getManyFrom` on the join table, stage 2 maps
`resolveLinkT` over the extracted `link[toField]` identifiers. -/
def getManyViaT (db : DBReader) (table : TableName) (toField : FieldName)
    (index : IndexName) (value : Value) (fieldArg : Option FieldName) :
    Except String (List (Option Doc)) × List DBOp :=
  match getManyFromT db table index value fieldArg with
  | (Except.error e, ops) => (Except.error e, ops)
  | (Except.ok links, ops) =>
    let rs := links.map (fun link => resolveLinkT db (link.idAt toField))
    (Except.ok (rs.map Prod.fst), ops ++ (rs.map Prod.snd).flatten)

def getManyVia (db : DBReader) (table : TableName) (toField : FieldName)
    (index : IndexName) (value : Value) (fieldArg : Option FieldName) :
    Except String (List (Option Doc)) :=
  (getManyViaT db table toField index value fieldArg).1

/-- Message of the error raised by `getManyViaOrThrow` on an unresolvable
join-record target: names the referenced identifier, the join table, the
target field, the resolved lookup field (`fieldArg[0] ?? index`) and the
lookup value. -/
def missingViaMsg (id : DocId) (table : TableName) (toField : FieldName)
    (field : FieldName) (value : Value) : String :=
  "Cannot find document " ++ toString id ++ " referenced in " ++ table ++
    " field " ++ toField ++ " for " ++ field ++ " equal to " ++
    toString value

/-- Per-join-record resolution of `getManyViaOrThrow`:
`try { return nullThrows(await db.get(id), msg) } catch
 { return nullThrows(await db.system.get(id), msg) }`.
An absent primary result makes `nullThrows` raise, which the `catch`
intercepts, so the system fallback is attempted both when the primary
`get` raises and when it completes with an absent value. -/
def resolveLinkOrThrowT (db : DBReader) (id : DocId) (msg : String) :
    Except String Doc × List DBOp :=
  match db.get id with
  | Except.ok (some d) => (Except.ok d, [DBOp.get id])
  | Except.ok none =>
    (nullThrows (db.systemGet id) (some msg),
     [DBOp.get id, DBOp.systemGet id])
  | Except.error _ =>
    (nullThrows (db.systemGet id) (some msg),
     [DBOp.get id, DBOp.systemGet id])

/-- `getManyViaOrThrow`: stage 1 is `getManyFrom` on the join table,
stage 2 maps `resolveLinkOrThrowT` over the extracted identifiers and
gathers the results, failing the whole call if any link fails. -/
def getManyViaOrThrowT (db : DBReader) (table : TableName)
    (toField : FieldName) (index : IndexName) (value : Value)
    (fieldArg : Option FieldName) :
    Except String (List Doc) × List DBOp :=
  match getManyFromT db table index value fieldArg with
  | (Except.error e, ops) => (Except.error e, ops)
  | (Except.ok links, ops) =>
    let rs := links.map (fun link =>
      resolveLinkOrThrowT db (link.idAt toField)
        (missingViaMsg (link.idAt toField) table toField
          (resolveField index fieldArg) value))
    (collectAll (rs.map Prod.fst), ops ++ (rs.map Prod.snd).flatten)

def getManyViaOrThrow (db : DBReader) (table : TableName)
    (toField : FieldName) (index : IndexName) (value : Value)
    (fieldArg : Option FieldName) : Except String (List Doc) :=
  (getManyViaOrThrowT db table toField index value fieldArg).1

/-! ### Predicates used in the claim statements -/

/-- The primary `get` resolves the identifier to a document. -/
def primaryResolves (db : DBReader) (id : DocId) : Prop :=
  ∃ d, db.get id = Except.ok (some d)

/-- The system fallback resolves the identifier to a document. -/
def fallbackResolves (db : DBReader) (id : DocId) : Prop :=
  ∃ d, db.systemGet id = some d

/-- Store consistency: identifiers are collection-scoped, so an identifier
the primary reader handles (returning a present or absent document rather
than raising) is not an identifier of a reserved/system table, and the
system reader has nothing for it. -/
def Consistent (db : DBReader) : Prop :=
  ∀ id r, db.get id = Except.ok r → db.systemGet id = none

/-- Every identifier of the list is one the primary reader handles without
raising (in the source this is enforced by typing: the identifiers of
`getAll`/`getAllOrThrow` point at one ordinary table of the data model). -/
def allGettable (db : DBReader) (ids : List DocId) : Prop :=
  ∀ id ∈ ids, ∃ r, db.get id = Except.ok r

/-- The call produced some result (did not raise). -/
def succeeds {α : Type} (r : Except String α) : Prop :=
  ∃ xs, r = Except.ok xs

/-- The call raised. -/
def errored {α : Type} (r : Except String α) : Prop :=
  ∃ e, r = Except.error e

/-- Every element of the produced sequence is present. -/
def allPresent (r : Except String (List (Option Doc))) : Prop :=
  ∃ out, r = Except.ok out ∧ ∀ o ∈ out, o ≠ none

/-- The produced sequence contains an absent element. -/
def producesAbsent (r : Except String (List (Option Doc))) : Prop :=
  ∃ out, r = Except.ok out ∧ none ∈ out

/-- Every error the call can raise is the generic null message (in
particular it does not name the offending identifier). -/
def genericError {α : Type} (r : Except String α) : Prop :=
  ∀ e, r = Except.error e → e = defaultNullMessage

/-- Every error the call can raise is a missing-record message naming the
join table, the target field, the resolved lookup field and the lookup
value (for some referenced identifier). -/
def errorIdentifies (r : Except String (List Doc)) (table : TableName)
    (toField : FieldName) (field : FieldName) (value : Value) : Prop :=
  ∀ e, r = Except.error e →
    ∃ id, e = missingViaMsg id table toField field value

/-- A throwing result refines a nullable result: when the throwing call
succeeds, the nullable call returns exactly its documents, all present. -/
def resolvesTo (rT : Except String (List Doc))
    (rA : Except String (List (Option Doc))) : Prop :=
  ∀ docs, rT = Except.ok docs → rA = Except.ok (docs.map some)

/-- Stage-2 results of `getManyVia` for a list of join records. -/
def viaResults (db : DBReader) (toField : FieldName) (links : List Doc) :
    List (Option Doc) :=
  links.map (fun link => (resolveLinkT db (link.idAt toField)).1)

/-- Per-join-record absence is equivalent to unresolvability by both the
primary reader and the system fallback. -/
def absentIffUnresolvable (db : DBReader) (toField : FieldName)
    (links : List Doc) : Prop :=
  ∀ link ∈ links,
    ((resolveLinkT db (link.idAt toField)).1 = none ↔
      (¬ primaryResolves db (link.idAt toField) ∧
       ¬ fallbackResolves db (link.idAt toField)))

/-- A state transition on some state type that leaves the state unchanged
on every read operation. -/
def preservesOnReads {σ : Type} (step : σ → DBOp → σ) : Prop :=
  ∀ s op, DBOp.isRead op = true → step s op = s

/-- The output of `getAll` corresponds pointwise to the input identifiers:
same length, and the element at every position is exactly what the store's
`get` yields for the identifier at that position. -/
def correspondsPointwise (db : DBReader) (ids : List DocId)
    (r : Except String (List (Option Doc))) : Prop :=
  ∃ out, r = Except.ok out ∧ out.length = ids.length ∧
    ∀ (j : Nat) (hj : j < ids.length) (hj2 : j < out.length),
      db.get (ids.get ⟨j, hj⟩) = Except.ok (out.get ⟨j, hj2⟩)

/-- The spec-side optionality rule implies the code-side one: an index
whose declared field list is exactly `[index]` does admit field omission. -/
def specOptionalImpliesCode : Prop :=
  ∀ idx : IndexDecl, fieldArgOptionalSpec idx = true →
    fieldArgOptional idx = true

/-! ### Helper lemmas about `collectAll` -/

theorem collectAll_cons {β : Type} (x : Except String β)
    (l : List (Except String β)) :
    collectAll (x :: l) =
      match x with
      | Except.error e => Except.error e
      | Except.ok b =>
        match collectAll l with
        | Except.error e => Except.error e
        | Except.ok bs => Except.ok (b :: bs) := by
  cases x <;> rfl

theorem collectAll_ok_length {β : Type} :
    ∀ {es : List (Except String β)} {out : List β},
      collectAll es = Except.ok out → out.length = es.length := by
  intro es
  induction es with
  | nil =>
    intro out h
    simp only [collectAll] at h
    injection h with h
    simp [← h]
  | cons x rest ih =>
    intro out h
    cases x with
    | error e => simp [collectAll_cons] at h
    | ok b =>
      rw [collectAll_cons] at h
      cases hr : collectAll rest with
      | error e => rw [hr] at h; simp at h
      | ok bs =>
        rw [hr] at h
        simp at h
        simp [← h, ih hr]

theorem collectAll_ok_get {β : Type} :
    ∀ {es : List (Except String β)} {out : List β},
      collectAll es = Except.ok out →
      ∀ (j : Nat) (hj : j < es.length) (hj2 : j < out.length),
        es.get ⟨j, hj⟩ = Except.ok (out.get ⟨j, hj2⟩) := by
  intro es
  induction es with
  | nil =>
    intro out h j hj hj2
    simp at hj
  | cons x rest ih =>
    intro out h j hj hj2
    cases x with
    | error e => simp [collectAll_cons] at h
    | ok b =>
      rw [collectAll_cons] at h
      cases hr : collectAll rest with
      | error e => rw [hr] at h; simp at h
      | ok bs =>
        rw [hr] at h
        simp at h
        subst h
        cases j with
        | zero => rfl
        | succ j =>
          exact ih hr j (by simpa using hj) (by simpa using hj2)

theorem collectAll_ok_of_forall {β : Type} :
    ∀ {es : List (Except String β)},
      (∀ x ∈ es, ∃ b, x = Except.ok b) →
      ∃ out, collectAll es = Except.ok out := by
  intro es
  induction es with
  | nil => intro _; exact ⟨[], rfl⟩
  | cons x rest ih =>
    intro h
    obtain ⟨b, hb⟩ := h x (by simp)
    obtain ⟨out, hout⟩ := ih (fun y hy => h y (by simp [hy]))
    subst hb
    exact ⟨b :: out, by rw [collectAll_cons, hout]⟩

theorem collectAll_error_mem {β : Type} :
    ∀ {es : List (Except String β)} {e : String},
      collectAll es = Except.error e → Except.error e ∈ es := by
  intro es
  induction es with
  | nil => intro e h; simp [collectAll] at h
  | cons x rest ih =>
    intro e h
    cases x with
    | error e2 =>
      rw [collectAll_cons] at h
      injection h with h
      subst h
      simp
    | ok b =>
      rw [collectAll_cons] at h
      cases hr : collectAll rest with
      | error e2 =>
        rw [hr] at h
        injection h with h
        subst h
        exact List.mem_cons_of_mem _ (ih hr)
      | ok bs => rw [hr] at h; simp at h

theorem collectAll_error_of_mem {β : Type} :
    ∀ {es : List (Except String β)} {e : String},
      Except.error e ∈ es → ∃ e2, collectAll es = Except.error e2 := by
  intro es
  induction es with
  | nil => intro e h; simp at h
  | cons x rest ih =>
    intro e h
    cases x with
    | error e2 => exact ⟨e2, by rw [collectAll_cons]⟩
    | ok b =>
      have hmem : Except.error e ∈ rest := by
        rcases List.mem_cons.mp h with h1 | h1
        · exact absurd h1 (by simp)
        · exact h1
      obtain ⟨e2, he2⟩ := ih hmem
      exact ⟨e2, by rw [collectAll_cons, he2]⟩

theorem errored_collectAll_iff {β : Type} (es : List (Except String β)) :
    errored (collectAll es) ↔ ∃ e, Except.error e ∈ es := by
  constructor
  · rintro ⟨e, he⟩
    exact ⟨e, collectAll_error_mem he⟩
  · rintro ⟨e, he⟩
    exact collectAll_error_of_mem he

theorem asyncMap_pointwise {α β : Type} (f : α → Except String β)
    (l : List α) (h : ∀ a ∈ l, ∃ b, f a = Except.ok b) :
    ∃ out, asyncMap l f = Except.ok out ∧ out.length = l.length ∧
      ∀ (j : Nat) (hj : j < l.length) (hj2 : j < out.length),
        f (l.get ⟨j, hj⟩) = Except.ok (out.get ⟨j, hj2⟩) := by
  have hall : ∀ x ∈ l.map f, ∃ b, x = Except.ok b := by
    intro x hx
    obtain ⟨a, ha, rfl⟩ := List.mem_map.mp hx
    exact h a ha
  obtain ⟨out, hout⟩ := collectAll_ok_of_forall hall
  refine ⟨out, hout, ?_, ?_⟩
  · have := collectAll_ok_length hout
    simpa using this
  · intro j hj hj2
    have hj' : j < (l.map f).length := by simpa using hj
    have := collectAll_ok_get hout j hj' hj2
    rw [← this]
    simp [List.get_eq_getElem]

/-! ### Per-join-record characterization lemmas -/

theorem resolveLink_absent_iff (db : DBReader) (hc : Consistent db)
    (id : DocId) :
    (resolveLinkT db id).1 = none ↔
      (¬ primaryResolves db id ∧ ¬ fallbackResolves db id) := by
  cases hg : db.get id with
  | ok d =>
    cases d with
    | none =>
      have hs := hc id none hg
      simp [resolveLinkT, hg, primaryResolves, fallbackResolves, hs]
    | some d0 =>
      simp [resolveLinkT, hg, primaryResolves, fallbackResolves]
  | error e =>
    cases hsys : db.systemGet id with
    | none => simp [resolveLinkT, hg, primaryResolves, fallbackResolves, hsys]
    | some d0 => simp [resolveLinkT, hg, primaryResolves, fallbackResolves, hsys]

theorem resolveLinkOrThrow_error_msg (db : DBReader) (id : DocId)
    (m e : String)
    (h : (resolveLinkOrThrowT db id m).1 = Except.error e) : e = m := by
  cases hg : db.get id with
  | ok d =>
    cases d with
    | none =>
      rw [resolveLinkOrThrowT] at h
      simp [hg] at h
      cases hsys : db.systemGet id <;> simp [nullThrows, hsys] at h
      exact h.symm
    | some d0 => rw [resolveLinkOrThrowT] at h; simp [hg] at h
  | error e2 =>
    rw [resolveLinkOrThrowT] at h
    simp [hg] at h
    cases hsys : db.systemGet id <;> simp [nullThrows, hsys] at h
    exact h.symm

theorem resolveLinkOrThrow_errored_iff (db : DBReader) (hc : Consistent db)
    (id : DocId) (m : String) :
    errored (resolveLinkOrThrowT db id m).1 ↔ (resolveLinkT db id).1 = none := by
  cases hg : db.get id with
  | ok d =>
    cases d with
    | none =>
      have hs := hc id none hg
      simp [resolveLinkOrThrowT, resolveLinkT, hg, hs, nullThrows, errored]
    | some d0 =>
      simp [resolveLinkOrThrowT, resolveLinkT, hg, errored]
  | error e =>
    cases hsys : db.systemGet id with
    | none => simp [resolveLinkOrThrowT, resolveLinkT, hg, hsys, nullThrows, errored]
    | some d0 => simp [resolveLinkOrThrowT, resolveLinkT, hg, hsys, nullThrows, errored]

theorem resolveLinkOrThrow_ok_iff (db : DBReader) (hc : Consistent db)
    (id : DocId) (m : String) (d : Doc) :
    (resolveLinkOrThrowT db id m).1 = Except.ok d ↔
      (resolveLinkT db id).1 = some d := by
  cases hg : db.get id with
  | ok r =>
    cases r with
    | none =>
      have hs := hc id none hg
      simp [resolveLinkOrThrowT, resolveLinkT, hg, hs, nullThrows]
    | some d0 => simp [resolveLinkOrThrowT, resolveLinkT, hg]
  | error e =>
    cases hsys : db.systemGet id <;>
      simp [resolveLinkOrThrowT, resolveLinkT, hg, hsys, nullThrows]

/-! ### Trace lemmas -/

theorem resolveLink_trace_readOnly (db : DBReader) (id : DocId) :
    readOnlyOps (resolveLinkT db id).2 := by
  intro op hop
  cases hg : db.get id with
  | ok d =>
    simp [resolveLinkT, hg] at hop
    subst hop; rfl
  | error e =>
    simp [resolveLinkT, hg] at hop
    rcases hop with rfl | rfl <;> rfl

theorem resolveLinkOrThrow_trace_readOnly (db : DBReader) (id : DocId)
    (m : String) :
    readOnlyOps (resolveLinkOrThrowT db id m).2 := by
  intro op hop
  cases hg : db.get id with
  | ok d =>
    cases d with
    | none =>
      simp [resolveLinkOrThrowT, hg] at hop
      rcases hop with rfl | rfl <;> rfl
    | some d0 =>
      simp [resolveLinkOrThrowT, hg] at hop
      subst hop; rfl
  | error e =>
    simp [resolveLinkOrThrowT, hg] at hop
    rcases hop with rfl | rfl <;> rfl

theorem foldl_eq_of_readOnly {σ : Type} (step : σ → DBOp → σ)
    (hstep : preservesOnReads step) :
    ∀ (ops : List DBOp), readOnlyOps ops → ∀ s : σ,
      List.foldl step s ops = s := by
  intro ops
  induction ops with
  | nil => intro _ s; rfl
  | cons op rest ih =>
    intro h s
    have h1 : DBOp.isRead op = true := h op (by simp)
    have h2 : readOnlyOps rest := fun o ho => h o (by simp [ho])
    simp only [List.foldl, hstep s op h1]
    exact ih h2 s

theorem getAllT_trace_readOnly (db : DBReader) (ids : List DocId) :
    readOnlyOps (getAllT db ids).2 := by
  intro op hop
  simp only [getAllT] at hop
  obtain ⟨i, _, rfl⟩ := List.mem_map.mp hop
  rfl

theorem getAllOrThrowT_trace_readOnly (db : DBReader) (ids : List DocId) :
    readOnlyOps (getAllOrThrowT db ids).2 := by
  intro op hop
  simp only [getAllOrThrowT] at hop
  obtain ⟨i, _, rfl⟩ := List.mem_map.mp hop
  rfl

theorem getOneFromT_trace_readOnly (db : DBReader) (table : TableName)
    (index : IndexName) (value : Value) (fieldArg : Option FieldName) :
    readOnlyOps (getOneFromT db table index value fieldArg).2 := by
  intro op hop
  simp only [getOneFromT] at hop
  simp at hop
  subst hop
  rfl

theorem getOneFromOrThrowT_trace_readOnly (db : DBReader)
    (table : TableName) (index : IndexName) (value : Value)
    (fieldArg : Option FieldName) :
    readOnlyOps (getOneFromOrThrowT db table index value fieldArg).2 := by
  intro op hop
  simp only [getOneFromOrThrowT] at hop
  simp at hop
  subst hop
  rfl

theorem getManyFromT_trace_readOnly (db : DBReader) (table : TableName)
    (index : IndexName) (value : Value) (fieldArg : Option FieldName) :
    readOnlyOps (getManyFromT db table index value fieldArg).2 := by
  intro op hop
  simp only [getManyFromT] at hop
  simp at hop
  subst hop
  rfl

theorem getManyViaT_trace_readOnly (db : DBReader) (table : TableName)
    (toField : FieldName) (index : IndexName) (value : Value)
    (fieldArg : Option FieldName) :
    readOnlyOps (getManyViaT db table toField index value fieldArg).2 := by
  intro op hop
  simp only [getManyViaT, getManyFromT] at hop
  rcases List.mem_append.mp hop with h1 | h1
  · simp at h1
    subst h1
    rfl
  · obtain ⟨l2, hl2, hop2⟩ := List.mem_flatten.mp h1
    obtain ⟨pair, hpair, rfl⟩ := List.mem_map.mp hl2
    obtain ⟨link, _, rfl⟩ := List.mem_map.mp hpair
    exact resolveLink_trace_readOnly db (link.idAt toField) op hop2

theorem getManyViaOrThrowT_trace_readOnly (db : DBReader)
    (table : TableName) (toField : FieldName) (index : IndexName)
    (value : Value) (fieldArg : Option FieldName) :
    readOnlyOps (getManyViaOrThrowT db table toField index value fieldArg).2 := by
  intro op hop
  simp only [getManyViaOrThrowT, getManyFromT] at hop
  rcases List.mem_append.mp hop with h1 | h1
  · simp at h1
    subst h1
    rfl
  · obtain ⟨l2, hl2, hop2⟩ := List.mem_flatten.mp h1
    obtain ⟨pair, hpair, rfl⟩ := List.mem_map.mp hl2
    obtain ⟨link, _, rfl⟩ := List.mem_map.mp hpair
    exact resolveLinkOrThrow_trace_readOnly db (link.idAt toField) _ op hop2

/-! ### Unfolding lemmas for the two join traversals -/

theorem getManyVia_eq (db : DBReader) (table : TableName)
    (toField : FieldName) (index : IndexName) (value : Value)
    (fieldArg : Option FieldName) :
    getManyVia db table toField index value fieldArg =
      Except.ok (viaResults db toField
        (db.queryByIndex table index (resolveField index fieldArg) value)) := by
  simp [getManyVia, getManyViaT, getManyFromT, viaResults, List.map_map,
    Function.comp]

theorem getManyViaOrThrow_eq (db : DBReader) (table : TableName)
    (toField : FieldName) (index : IndexName) (value : Value)
    (fieldArg : Option FieldName) :
    getManyViaOrThrow db table toField index value fieldArg =
      collectAll ((db.queryByIndex table index (resolveField index fieldArg)
          value).map (fun link =>
        (resolveLinkOrThrowT db (link.idAt toField)
          (missingViaMsg (link.idAt toField) table toField
            (resolveField index fieldArg) value)).1)) := by
  simp [getManyViaOrThrow, getManyViaOrThrowT, getManyFromT, List.map_map,
    Function.comp_def]

/-! ### A concrete example store, used by the witnesses -/

def tokenField : FieldName := "tokenIdentifier"
def sessionField : FieldName := "sessionId"
def roomField : FieldName := "room"
def exTable : TableName := "join_table_example"
def exIndex : IndexName := "userId"
def storeErrMsg : String := "db.get cannot read system tables"
def exDocA : Doc := ⟨[(tokenField, 7)]⟩
def exDocS : Doc := ⟨[(tokenField, 8)]⟩
def linkTo1 : Doc := ⟨[(sessionField, 1)]⟩
def linkTo2 : Doc := ⟨[(sessionField, 2)]⟩
def linkTo9 : Doc := ⟨[(sessionField, 9)]⟩

/-- An example store: identifier 1 resolves through the primary reader,
identifier 2 is an ordinary identifier whose document is missing,
identifiers 3 and 9 are system identifiers the primary reader raises on,
and only 9 resolves through the system reader.  Lookup value 5 matches two
join records, value 6 matches two documents, value 7 matches one join
record pointing at the missing identifier 2. -/
def exDB : DBReader where
  get := fun i =>
    if i = 1 then Except.ok (some exDocA)
    else if i = 9 then Except.error storeErrMsg
    else if i = 3 then Except.error storeErrMsg
    else Except.ok none
  systemGet := fun i => if i = 9 then some exDocS else none
  queryByIndex := fun _ _ _ v =>
    if v = 5 then [linkTo1, linkTo9]
    else if v = 6 then [exDocA, exDocS]
    else if v = 7 then [linkTo2]
    else []

theorem exDB_consistent : Consistent exDB := by
  intro id r h
  by_cases h9 : id = 9
  · subst h9
    simp [exDB] at h
  · by_cases h3 : id = 3
    · subst h3
      simp [exDB] at h
    · simp [exDB, h9, h3]

theorem exDB_allGettable_A : allGettable exDB [1, 2] := by
  intro id hid
  simp at hid
  rcases hid with rfl | rfl
  · exact ⟨some exDocA, rfl⟩
  · exact ⟨none, rfl⟩

theorem exDB_allGettable_B : allGettable exDB [2, 1] := by
  intro id hid
  simp at hid
  rcases hid with rfl | rfl
  · exact ⟨none, rfl⟩
  · exact ⟨some exDocA, rfl⟩

/-- The identity state transition used by the frame-claim witness. -/
def idStep : Nat → DBOp → Nat := fun s _ => s

theorem idStep_preserves : preservesOnReads idStep := fun _ _ _ => rfl

/-- An index of a composite index named after its first declared field:
the index `userId` declared over the fields `[userId, room]`. -/
def cexIndex : IndexDecl := ⟨exIndex, [exIndex, roomField]⟩

/-! ### The claims -/

/-- C7: for every collection, index and value, `getManyFrom` returns
exactly the sequence of documents produced by the store adapter's
`queryByIndex` for that lookup (with the resolved field), unmodified in
order and content, possibly empty. -/
theorem getManyFrom_eq_queryByIndex (db : DBReader) (table : TableName)
    (index : IndexName) (value : Value) (fieldArg : Option FieldName) :
    getManyFrom db table index value fieldArg =
      Except.ok (db.queryByIndex table index (resolveField index fieldArg)
        value) := rfl

/-- C5: `getOneFrom` returns absent iff the store's `queryByIndex` for
that collection, resolved field and value yields the empty sequence, and
returns the single matching document when that sequence has exactly one
element. -/
theorem getOneFrom_unique_semantics (db : DBReader) (table : TableName)
    (index : IndexName) (value : Value) (fieldArg : Option FieldName) :
    (getOneFrom db table index value fieldArg = Except.ok none ↔
      db.queryByIndex table index (resolveField index fieldArg) value = []) ∧
    ∀ d : Doc,
      (getOneFrom db table index value fieldArg = Except.ok (some d) ↔
        db.queryByIndex table index (resolveField index fieldArg) value
          = [d]) := by
  constructor
  · cases hq : db.queryByIndex table index (resolveField index fieldArg)
        value with
    | nil => simp [getOneFrom, getOneFromT, hq, uniqueQ]
    | cons d rest =>
      cases rest with
      | nil => simp [getOneFrom, getOneFromT, hq, uniqueQ]
      | cons d2 rest2 => simp [getOneFrom, getOneFromT, hq, uniqueQ]
  · intro d
    cases hq : db.queryByIndex table index (resolveField index fieldArg)
        value with
    | nil => simp [getOneFrom, getOneFromT, hq, uniqueQ]
    | cons d1 rest =>
      cases rest with
      | nil =>
        simp only [getOneFrom, getOneFromT, hq, uniqueQ]
        constructor
        · intro h
          injection h with h
          injection h with h
          simp [h]
        · intro h
          injection h with h h2
          simp [h]
      | cons d2 rest2 => simp [getOneFrom, getOneFromT, hq, uniqueQ]

/-- C10: when the index scan matches more than one document, `getOneFrom`
and `getOneFromOrThrow` both propagate the error raised by the store's
`unique()` query — the multiple-match policy is to raise, never to return
an arbitrary match. -/
theorem multiple_match_raises (db : DBReader) (table : TableName)
    (index : IndexName) (value : Value) (fieldArg : Option FieldName)
    (d1 d2 : Doc) (rest : List Doc)
    (hq : db.queryByIndex table index (resolveField index fieldArg) value =
      d1 :: d2 :: rest) :
    getOneFrom db table index value fieldArg =
      Except.error uniqueViolationMessage ∧
    getOneFromOrThrow db table index value fieldArg =
      Except.error uniqueViolationMessage := by
  constructor
  · simp [getOneFrom, getOneFromT, hq, uniqueQ]
  · simp [getOneFromOrThrow, getOneFromOrThrowT, hq, uniqueQ]

/-- C10 witness: in the example store, lookup value 6 matches two
documents and both single-document operations raise the unique-violation
error. -/
theorem multiple_match_raises_witness :
    exDB.queryByIndex exTable exIndex (resolveField exIndex none) 6 =
      exDocA :: exDocS :: [] ∧
    (getOneFrom exDB exTable exIndex 6 none =
        Except.error uniqueViolationMessage ∧
      getOneFromOrThrow exDB exTable exIndex 6 none =
        Except.error uniqueViolationMessage) :=
  ⟨rfl, multiple_match_raises exDB exTable exIndex 6 none exDocA exDocS []
    rfl⟩

/-- C6 counterexample: for a composite index named after its first field
(`userId` over `[userId, room]`), the source's `FieldIfDoesntMatchIndex`
permits omitting the field argument although the declared field list is
not exactly `[index]`, and it rejects the second declared field although
the claim says any declared field is accepted. -/
theorem fieldArg_optional_composite_cex :
    fieldArgOptional cexIndex = true ∧
    fieldArgOptionalSpec cexIndex = false ∧
    fieldArgAccepted cexIndex roomField = false ∧
    fieldArgAcceptedSpec cexIndex roomField = true := by
  refine ⟨?_, ?_, ?_, ?_⟩ <;> decide

/-- C6 (amended): a supplied field argument is used and an omitted one
defaults to the index's name; omission is permitted exactly when the
index's FIRST declared field equals the index's own name (regardless of
any later fields), and a supplied field argument must equal the index's
first declared field. -/
theorem fieldArg_resolution_amended (idx : IndexDecl) (f : FieldName)
    (db : DBReader) (table : TableName) (index : IndexName)
    (value : Value) :
    (fieldArgOptional idx = true ↔ idx.fields.head? = some idx.name) ∧
    (fieldArgAccepted idx f = true ↔ idx.fields.head? = some f) ∧
    specOptionalImpliesCode ∧
    getOneFrom db table index value none =
      uniqueQ (db.queryByIndex table index index value) ∧
    getOneFrom db table index value (some f) =
      uniqueQ (db.queryByIndex table index f value) := by
  refine ⟨by simp [fieldArgOptional], by simp [fieldArgAccepted], ?_, rfl,
    rfl⟩
  intro idx2 h2
  simp [fieldArgOptionalSpec] at h2
  simp [fieldArgOptional, h2]

/-- C4: `getAll` returns one element per identifier, in input order: the
element at every position is exactly what the store's `get` yields for
the identifier at that position — in particular it is absent iff the
store has no document for that identifier. -/
theorem getAll_pointwise (db : DBReader) (ids : List DocId)
    (h : allGettable db ids) :
    correspondsPointwise db ids (getAll db ids) :=
  asyncMap_pointwise db.get ids h

/-- C4 witness. -/
theorem getAll_pointwise_witness :
    allGettable exDB [2, 1] ∧
    correspondsPointwise exDB [2, 1] (getAll exDB [2, 1]) :=
  ⟨exDB_allGettable_B, getAll_pointwise exDB [2, 1] exDB_allGettable_B⟩

theorem getOrThrow_of_ok_some (db : DBReader) (i : DocId) (d : Doc)
    (h : db.get i = Except.ok (some d)) : getOrThrow db i = Except.ok d := by
  simp [getOrThrow, h, nullThrows]

theorem getOrThrow_of_ok_none (db : DBReader) (i : DocId)
    (h : db.get i = Except.ok none) :
    getOrThrow db i = Except.error defaultNullMessage := by
  simp [getOrThrow, h, nullThrows]

theorem getAllOrThrow_core (db : DBReader) :
    ∀ ids : List DocId, allGettable db ids →
      (succeeds (getAllOrThrow db ids) ↔ allPresent (getAll db ids)) ∧
      resolvesTo (getAllOrThrow db ids) (getAll db ids) ∧
      genericError (getAllOrThrow db ids) := by
  intro ids
  induction ids with
  | nil =>
    intro _
    refine ⟨?_, ?_, ?_⟩
    · simp only [succeeds, allPresent]
      constructor
      · intro _
        exact ⟨[], rfl, by simp⟩
      · intro _
        exact ⟨[], rfl⟩
    · intro docs hd
      have hd2 : Except.ok ([] : List Doc) = Except.ok docs := hd
      injection hd2 with hd2
      subst hd2
      rfl
    · intro e he
      exact Except.noConfusion
        (show Except.ok ([] : List Doc) = Except.error e from he)
  | cons i rest ih =>
    intro h
    obtain ⟨r, hr⟩ := h i (by simp)
    have hrest : allGettable db rest := fun id hid => h id (by simp [hid])
    obtain ⟨iffR, resR, genR⟩ := ih hrest
    have hAex : ∃ outA, getAll db rest = Except.ok outA := by
      apply collectAll_ok_of_forall
      intro x hx
      obtain ⟨a, ha, rfl⟩ := List.mem_map.mp hx
      exact hrest a ha
    obtain ⟨outA, hA⟩ := hAex
    have hstepT : getAllOrThrow db (i :: rest) =
        collectAll (getOrThrow db i :: rest.map (getOrThrow db)) := rfl
    have hstepA : getAll db (i :: rest) =
        collectAll (db.get i :: rest.map db.get) := rfl
    have hA2 : collectAll (rest.map db.get) = Except.ok outA := hA
    cases r with
    | none =>
      have hgi := getOrThrow_of_ok_none db i hr
      have hT : getAllOrThrow db (i :: rest) =
          Except.error defaultNullMessage := by
        rw [hstepT, collectAll_cons]
        simp [hgi]
      have hG : getAll db (i :: rest) = Except.ok (none :: outA) := by
        rw [hstepA, collectAll_cons]
        simp [hr, hA2]
      refine ⟨?_, ?_, ?_⟩
      · rw [hT, hG]
        simp only [succeeds, allPresent]
        constructor
        · rintro ⟨xs, hxs⟩
          exact Except.noConfusion hxs
        · rintro ⟨out, hout, hall⟩
          injection hout with hout
          subst hout
          exact absurd (hall none (by simp)) (by simp)
      · intro docs hd
        rw [hT] at hd
        exact Except.noConfusion hd
      · intro e he
        rw [hT] at he
        injection he with he
        exact he.symm
    | some d =>
      have hgi : getOrThrow db i = Except.ok d :=
        getOrThrow_of_ok_some db i d hr
      cases hT : getAllOrThrow db rest with
      | error e =>
        have hT3 : collectAll (rest.map (getOrThrow db)) =
            Except.error e := hT
        have hT2 : getAllOrThrow db (i :: rest) = Except.error e := by
          rw [hstepT, collectAll_cons]
          simp [hgi, hT3]
        have hGc : getAll db (i :: rest) = Except.ok (some d :: outA) := by
          rw [hstepA, collectAll_cons]
          simp [hr, hA2]
        have hnotT : ¬ succeeds (getAllOrThrow db rest) := by
          rw [hT]
          rintro ⟨xs, hxs⟩
          exact Except.noConfusion hxs
        have hnotA : ¬ allPresent (getAll db rest) := fun hp =>
          hnotT (iffR.mpr hp)
        refine ⟨?_, ?_, ?_⟩
        · rw [hT2, hGc]
          simp only [succeeds, allPresent]
          constructor
          · rintro ⟨xs, hxs⟩
            exact Except.noConfusion hxs
          · rintro ⟨out, hout, hall⟩
            injection hout with hout
            subst hout
            exact absurd ⟨outA, hA, fun o ho => hall o (by simp [ho])⟩ hnotA
        · intro docs hd
          rw [hT2] at hd
          exact Except.noConfusion hd
        · intro e2 he2
          rw [hT2] at he2
          injection he2 with he2
          subst he2
          exact genR e hT
      | ok bs =>
        have hT3 : collectAll (rest.map (getOrThrow db)) =
            Except.ok bs := hT
        have hT2 : getAllOrThrow db (i :: rest) = Except.ok (d :: bs) := by
          rw [hstepT, collectAll_cons]
          simp [hgi, hT3]
        have hArest : getAll db rest = Except.ok (bs.map some) := resR bs hT
        have hA3 : collectAll (rest.map db.get) =
            Except.ok (bs.map some) := hArest
        have hGc : getAll db (i :: rest) =
            Except.ok (some d :: bs.map some) := by
          rw [hstepA, collectAll_cons]
          simp [hr, hA3]
        refine ⟨?_, ?_, ?_⟩
        · rw [hT2, hGc]
          simp only [succeeds, allPresent]
          constructor
          · intro _
            refine ⟨some d :: bs.map some, rfl, ?_⟩
            intro o ho
            rcases List.mem_cons.mp ho with rfl | ho2
            · simp
            · obtain ⟨b, _, rfl⟩ := List.mem_map.mp ho2
              simp
          · intro _
            exact ⟨d :: bs, rfl⟩
        · intro docs hd
          rw [hT2] at hd
          injection hd with hd
          subst hd
          rw [hGc]
          rfl
        · intro e2 he2
          rw [hT2] at he2
          exact Except.noConfusion he2

/-- C3 (amended): `getAllOrThrow` succeeds iff every element of `getAll`
on the same identifiers is non-absent, and on success it returns exactly
the fully resolved sequence, in input order; on failure it raises a
missing-record error — whose message is the generic default and hence does
not carry the offending identifier — and no partial result is returned
(an error result carries no sequence at all). -/
theorem getAllOrThrow_succeeds_iff_all_present (db : DBReader)
    (ids : List DocId) (h : allGettable db ids) :
    (succeeds (getAllOrThrow db ids) ↔ allPresent (getAll db ids)) ∧
    resolvesTo (getAllOrThrow db ids) (getAll db ids) ∧
    genericError (getAllOrThrow db ids) :=
  getAllOrThrow_core db ids h

/-- C3 witness. -/
theorem getAllOrThrow_succeeds_iff_all_present_witness :
    allGettable exDB [1, 2] ∧
    ((succeeds (getAllOrThrow exDB [1, 2]) ↔
        allPresent (getAll exDB [1, 2])) ∧
      resolvesTo (getAllOrThrow exDB [1, 2]) (getAll exDB [1, 2]) ∧
      genericError (getAllOrThrow exDB [1, 2])) :=
  ⟨exDB_allGettable_A,
    getAllOrThrow_succeeds_iff_all_present exDB [1, 2] exDB_allGettable_A⟩

/-- C3 counterexample: the identifiers 2 and 4 are both missing from the
example store, yet `getAllOrThrow` raises the very same generic error for
both — the source passes no message to `nullThrows`, so the raised error
cannot reference the offending identifier. -/
theorem getAllOrThrow_error_lacks_id_cex :
    getAllOrThrow exDB [2] = Except.error defaultNullMessage ∧
    getAllOrThrow exDB [4] = Except.error defaultNullMessage ∧
    (2 : DocId) ≠ 4 :=
  ⟨rfl, rfl, by decide⟩

/-- C1: for a consistent store (identifiers are collection-scoped, so an
identifier the primary reader handles is not resolvable by the system
reader), `getManyVia` produces exactly one output element per stage-1 join
record — the output is the stage-1 sequence mapped through per-link
resolution, hence of equal length and in stage-1 order — and an element is
absent iff neither the primary `get` nor the system fallback resolves that
join record's `toField` identifier. -/
theorem getManyVia_one_per_link_absent_iff (db : DBReader)
    (table : TableName) (toField : FieldName) (index : IndexName)
    (value : Value) (fieldArg : Option FieldName) (hc : Consistent db) :
    getManyVia db table toField index value fieldArg =
      Except.ok (viaResults db toField
        (db.queryByIndex table index (resolveField index fieldArg) value)) ∧
    (viaResults db toField
        (db.queryByIndex table index (resolveField index fieldArg)
          value)).length =
      (db.queryByIndex table index (resolveField index fieldArg)
        value).length ∧
    absentIffUnresolvable db toField
      (db.queryByIndex table index (resolveField index fieldArg) value) := by
  refine ⟨getManyVia_eq db table toField index value fieldArg,
    by simp [viaResults], ?_⟩
  intro link _
  exact resolveLink_absent_iff db hc (link.idAt toField)

/-- C1 witness. -/
theorem getManyVia_one_per_link_absent_iff_witness :
    Consistent exDB ∧
    (getManyVia exDB exTable sessionField exIndex 5 none =
      Except.ok (viaResults exDB sessionField
        (exDB.queryByIndex exTable exIndex (resolveField exIndex none) 5)) ∧
    (viaResults exDB sessionField
        (exDB.queryByIndex exTable exIndex (resolveField exIndex none)
          5)).length =
      (exDB.queryByIndex exTable exIndex (resolveField exIndex none)
        5).length ∧
    absentIffUnresolvable exDB sessionField
      (exDB.queryByIndex exTable exIndex (resolveField exIndex none) 5)) :=
  ⟨exDB_consistent, getManyVia_one_per_link_absent_iff exDB exTable
    sessionField exIndex 5 none exDB_consistent⟩

/-- C2: for a consistent store, `getManyViaOrThrow` raises iff
`getManyVia` on the same arguments produces at least one absent element,
and every error it can raise is the missing-record message naming the join
collection, the target field, the resolved lookup field and the
originating lookup value (for the offending referenced identifier); an
error result carries no document sequence, so no partial result is
returned. -/
theorem getManyViaOrThrow_error_iff_absent (db : DBReader)
    (table : TableName) (toField : FieldName) (index : IndexName)
    (value : Value) (fieldArg : Option FieldName) (hc : Consistent db) :
    (errored (getManyViaOrThrow db table toField index value fieldArg) ↔
      producesAbsent (getManyVia db table toField index value fieldArg)) ∧
    errorIdentifies (getManyViaOrThrow db table toField index value fieldArg)
      table toField (resolveField index fieldArg) value := by
  have hOr := getManyViaOrThrow_eq db table toField index value fieldArg
  have hVia := getManyVia_eq db table toField index value fieldArg
  constructor
  · rw [hOr, hVia, errored_collectAll_iff]
    constructor
    · rintro ⟨e, he⟩
      obtain ⟨link, hlink, hle⟩ := List.mem_map.mp he
      have habs : (resolveLinkT db (link.idAt toField)).1 = none :=
        (resolveLinkOrThrow_errored_iff db hc (link.idAt toField)
          (missingViaMsg (link.idAt toField) table toField
            (resolveField index fieldArg) value)).mp ⟨e, hle⟩
      refine ⟨viaResults db toField
        (db.queryByIndex table index (resolveField index fieldArg) value),
        rfl, ?_⟩
      simp only [viaResults]
      exact List.mem_map.mpr ⟨link, hlink, habs⟩
    · rintro ⟨out, hout, hnone⟩
      injection hout with hout
      subst hout
      simp only [viaResults] at hnone
      obtain ⟨link, hlink, habs⟩ := List.mem_map.mp hnone
      have herr : errored (resolveLinkOrThrowT db (link.idAt toField)
          (missingViaMsg (link.idAt toField) table toField
            (resolveField index fieldArg) value)).1 :=
        (resolveLinkOrThrow_errored_iff db hc (link.idAt toField)
          (missingViaMsg (link.idAt toField) table toField
            (resolveField index fieldArg) value)).mpr habs
      obtain ⟨e, he⟩ := herr
      exact ⟨e, List.mem_map.mpr ⟨link, hlink, he⟩⟩
  · intro e he
    rw [hOr] at he
    have hmem := collectAll_error_mem he
    obtain ⟨link, hlink, hle⟩ := List.mem_map.mp hmem
    exact ⟨link.idAt toField, resolveLinkOrThrow_error_msg db
      (link.idAt toField) (missingViaMsg (link.idAt toField) table toField
        (resolveField index fieldArg) value) e hle⟩

/-- C2 witness: lookup value 7 matches one join record pointing at the
missing ordinary identifier 2, so `getManyVia` produces an absent element
and `getManyViaOrThrow` raises. -/
theorem getManyViaOrThrow_error_iff_absent_witness :
    Consistent exDB ∧
    ((errored (getManyViaOrThrow exDB exTable sessionField exIndex 7 none) ↔
      producesAbsent (getManyVia exDB exTable sessionField exIndex 7 none)) ∧
    errorIdentifies (getManyViaOrThrow exDB exTable sessionField exIndex 7
      none) exTable sessionField (resolveField exIndex none) 7) :=
  ⟨exDB_consistent, getManyViaOrThrow_error_iff_absent exDB exTable
    sessionField exIndex 7 none exDB_consistent⟩

/-- C9: the system-fallback policy.  `getManyVia` decomposes into the
stage-1 lookup followed by per-link resolution (`resolveLinkT`), whose
trace shows that `systemGet` is consulted only when the primary `get`
raises: a primary `get` that resolves or that returns absent issues no
`systemGet` call, and in the absent case the output element is absent.
In `getManyViaOrThrow`'s per-link resolution (`resolveLinkOrThrowT`), by
contrast, an absent primary result also triggers the system fallback
attempt (its trace contains the `systemGet` call) before the call fails. -/
theorem systemGet_fallback_policy (db : DBReader) (table : TableName)
    (toField : FieldName) (index : IndexName) (value : Value)
    (fieldArg : Option FieldName) (i1 i2 i3 : DocId) (d : Doc)
    (e m : String)
    (h1 : db.get i1 = Except.ok (some d))
    (h2 : db.get i2 = Except.ok none)
    (h3 : db.get i3 = Except.error e) :
    getManyViaT db table toField index value fieldArg =
      (Except.ok (viaResults db toField (db.queryByIndex table index
          (resolveField index fieldArg) value)),
        DBOp.queryByIndex table index (resolveField index fieldArg) value ::
          ((db.queryByIndex table index (resolveField index fieldArg)
              value).map
            (fun link => (resolveLinkT db (link.idAt toField)).2)).flatten) ∧
    resolveLinkT db i1 = (some d, [DBOp.get i1]) ∧
    resolveLinkT db i2 = (none, [DBOp.get i2]) ∧
    resolveLinkT db i3 =
      (db.systemGet i3, [DBOp.get i3, DBOp.systemGet i3]) ∧
    resolveLinkOrThrowT db i2 m =
      (nullThrows (db.systemGet i2) (some m),
        [DBOp.get i2, DBOp.systemGet i2]) ∧
    resolveLinkOrThrowT db i3 m =
      (nullThrows (db.systemGet i3) (some m),
        [DBOp.get i3, DBOp.systemGet i3]) := by
  refine ⟨?_, by simp [resolveLinkT, h1], by simp [resolveLinkT, h2],
    by simp [resolveLinkT, h3], by simp [resolveLinkOrThrowT, h2],
    by simp [resolveLinkOrThrowT, h3]⟩
  simp [getManyViaT, getManyFromT, viaResults, List.map_map,
    Function.comp_def]

/-- C9 witness. -/
theorem systemGet_fallback_policy_witness :
    exDB.get 1 = Except.ok (some exDocA) ∧
    exDB.get 2 = Except.ok none ∧
    exDB.get 9 = Except.error storeErrMsg ∧
    (getManyViaT exDB exTable sessionField exIndex 5 none =
      (Except.ok (viaResults exDB sessionField (exDB.queryByIndex exTable
          exIndex (resolveField exIndex none) 5)),
        DBOp.queryByIndex exTable exIndex (resolveField exIndex none) 5 ::
          ((exDB.queryByIndex exTable exIndex (resolveField exIndex none)
              5).map
            (fun link =>
              (resolveLinkT exDB (link.idAt sessionField)).2)).flatten) ∧
    resolveLinkT exDB 1 = (some exDocA, [DBOp.get 1]) ∧
    resolveLinkT exDB 2 = (none, [DBOp.get 2]) ∧
    resolveLinkT exDB 9 =
      (exDB.systemGet 9, [DBOp.get 9, DBOp.systemGet 9]) ∧
    resolveLinkOrThrowT exDB 2 defaultNullMessage =
      (nullThrows (exDB.systemGet 2) (some defaultNullMessage),
        [DBOp.get 2, DBOp.systemGet 2]) ∧
    resolveLinkOrThrowT exDB 9 defaultNullMessage =
      (nullThrows (exDB.systemGet 9) (some defaultNullMessage),
        [DBOp.get 9, DBOp.systemGet 9])) :=
  ⟨rfl, rfl, rfl, systemGet_fallback_policy exDB exTable sessionField
    exIndex 5 none 1 2 9 exDocA storeErrMsg defaultNullMessage rfl rfl rfl⟩

/-- C8: none of the seven operations mutates the store.  Each operation's
trace of issued store calls contains only the three reads (`get`,
`queryByIndex`, `systemGet`), and replaying any operation's trace through
any state transition that leaves the state unchanged on reads returns the
initial state — the store state after the call equals the store state
before it. -/
theorem readOnly_all_operations {σ : Type} (db : DBReader)
    (ids : List DocId) (table : TableName) (index : IndexName)
    (value : Value) (fieldArg : Option FieldName) (toField : FieldName)
    (step : σ → DBOp → σ) (s : σ) (hstep : preservesOnReads step) :
    (readOnlyOps (getAllT db ids).2 ∧
      List.foldl step s (getAllT db ids).2 = s) ∧
    (readOnlyOps (getAllOrThrowT db ids).2 ∧
      List.foldl step s (getAllOrThrowT db ids).2 = s) ∧
    (readOnlyOps (getOneFromT db table index value fieldArg).2 ∧
      List.foldl step s (getOneFromT db table index value fieldArg).2
        = s) ∧
    (readOnlyOps (getOneFromOrThrowT db table index value fieldArg).2 ∧
      List.foldl step s
        (getOneFromOrThrowT db table index value fieldArg).2 = s) ∧
    (readOnlyOps (getManyFromT db table index value fieldArg).2 ∧
      List.foldl step s (getManyFromT db table index value fieldArg).2
        = s) ∧
    (readOnlyOps (getManyViaT db table toField index value fieldArg).2 ∧
      List.foldl step s
        (getManyViaT db table toField index value fieldArg).2 = s) ∧
    (readOnlyOps
        (getManyViaOrThrowT db table toField index value fieldArg).2 ∧
      List.foldl step s
        (getManyViaOrThrowT db table toField index value fieldArg).2
        = s) := by
  have h1 := getAllT_trace_readOnly db ids
  have h2 := getAllOrThrowT_trace_readOnly db ids
  have h3 := getOneFromT_trace_readOnly db table index value fieldArg
  have h4 := getOneFromOrThrowT_trace_readOnly db table index value fieldArg
  have h5 := getManyFromT_trace_readOnly db table index value fieldArg
  have h6 := getManyViaT_trace_readOnly db table toField index value fieldArg
  have h7 := getManyViaOrThrowT_trace_readOnly db table toField index value
    fieldArg
  exact ⟨⟨h1, foldl_eq_of_readOnly step hstep _ h1 s⟩,
    ⟨h2, foldl_eq_of_readOnly step hstep _ h2 s⟩,
    ⟨h3, foldl_eq_of_readOnly step hstep _ h3 s⟩,
    ⟨h4, foldl_eq_of_readOnly step hstep _ h4 s⟩,
    ⟨h5, foldl_eq_of_readOnly step hstep _ h5 s⟩,
    ⟨h6, foldl_eq_of_readOnly step hstep _ h6 s⟩,
    ⟨h7, foldl_eq_of_readOnly step hstep _ h7 s⟩⟩

/-- C8 witness. -/
theorem readOnly_all_operations_witness :
    preservesOnReads idStep ∧
    ((readOnlyOps (getAllT exDB [1, 2]).2 ∧
      List.foldl idStep 0 (getAllT exDB [1, 2]).2 = 0) ∧
    (readOnlyOps (getAllOrThrowT exDB [1, 2]).2 ∧
      List.foldl idStep 0 (getAllOrThrowT exDB [1, 2]).2 = 0) ∧
    (readOnlyOps (getOneFromT exDB exTable exIndex 5 none).2 ∧
      List.foldl idStep 0 (getOneFromT exDB exTable exIndex 5 none).2
        = 0) ∧
    (readOnlyOps (getOneFromOrThrowT exDB exTable exIndex 5 none).2 ∧
      List.foldl idStep 0
        (getOneFromOrThrowT exDB exTable exIndex 5 none).2 = 0) ∧
    (readOnlyOps (getManyFromT exDB exTable exIndex 5 none).2 ∧
      List.foldl idStep 0 (getManyFromT exDB exTable exIndex 5 none).2
        = 0) ∧
    (readOnlyOps (getManyViaT exDB exTable sessionField exIndex 5 none).2 ∧
      List.foldl idStep 0
        (getManyViaT exDB exTable sessionField exIndex 5 none).2 = 0) ∧
    (readOnlyOps
        (getManyViaOrThrowT exDB exTable sessionField exIndex 5 none).2 ∧
      List.foldl idStep 0
        (getManyViaOrThrowT exDB exTable sessionField exIndex 5 none).2
        = 0)) :=
  ⟨idStep_preserves, readOnly_all_operations exDB [1, 2] exTable exIndex 5
    none sessionField idStep 0 idStep_preserves⟩

end Relationships
